import Mathlib

/-
Verification development for the BdF publications notifier
(src/bdf_gmail_api_notifier.py).

The Python module is shallowly embedded: pure string processing becomes
Lean functions on `List Char` / `String`; the regular-expression fragment
actually used by the source (case-insensitive literals, `.*` gaps,
character classes \d \w \s with greedy backtracking, bounded repetition)
is implemented directly; file and network effects become explicit values
(`Except` for a fetch that may raise, `Option (Except ..)` for the state
file).  Character classes are modelled on their ASCII fragment, which
covers every pattern occurring in the source.
-/

namespace BdF

/-- Python whitespace class \s (and the set stripped by str.strip),
ASCII fragment: space, tab, newline, carriage return, vertical tab,
form feed. -/
def pyIsSpace (c : Char) : Bool :=
  (c == ' ') || (c == '\t') || (c == '\n') || (c == '\r') ||
  (c == Char.ofNat 11) || (c == Char.ofNat 12)

/-- Python word-character class \w, ASCII fragment: letters, digits,
underscore. -/
def isWordChar (c : Char) : Bool :=
  c.isAlphanum || c == '_'

/-- Lower-case a pattern literal (re.IGNORECASE is modelled by comparing
lower-cased characters). -/
def lc (s : String) : List Char :=
  s.data.map Char.toLower

/-- Match a fixed literal case-insensitively at the head of the input
(the literal is given lower-cased); returns the remaining suffix. -/
def litCIAt : List Char → List Char → Option (List Char)
  | [], s => some s
  | _ :: _, [] => none
  | c :: cs, x :: xs => if x.toLower == c then litCIAt cs xs else none

/-- Greedy `p*` with backtracking, in continuation-passing style: longer
consumptions are tried first, exactly as a backtracking regex engine
does for a greedy star over a one-character class. -/
def starBT (p : Char → Bool) (k : List Char → Option (List Char)) :
    List Char → Option (List Char)
  | [] => k []
  | c :: rest =>
    if p c then (starBT p k rest) <|> k (c :: rest) else k (c :: rest)

/-- Greedy `p+` with backtracking (one required character, then `p*`). -/
def plusBT (p : Char → Bool) (k : List Char → Option (List Char)) :
    List Char → Option (List Char)
  | [] => none
  | c :: rest => if p c then starBT p k rest else none

/-- Greedy `.`-star (`.` does not match a newline in Python's default
mode) with backtracking. -/
def dotStarBT (k : List Char → Option (List Char)) :
    List Char → Option (List Char) :=
  starBT (fun c => !(c == '\n')) k

/-- `\d{1,2}` greedy with backtracking: two digits are preferred, one is
tried on failure of the continuation. -/
def digits12 (k : List Char → Option (List Char)) (s : List Char) :
    Option (List Char) :=
  match s with
  | a :: b :: rest =>
    if a.isDigit then
      (if b.isDigit then k rest else none) <|> k (b :: rest)
    else none
  | [a] => if a.isDigit then k [] else none
  | [] => none

/-- `\d{4}`: exactly four digits. -/
def digits4 (k : List Char → Option (List Char)) (s : List Char) :
    Option (List Char) :=
  match s with
  | a :: b :: c :: d :: rest =>
    if a.isDigit && b.isDigit && c.isDigit && d.isDigit then k rest
    else none
  | _ => none

/-- `(?:st|nd|rd|th)?`, greedy: the alternatives are tried in the order
written in the source pattern, then the empty alternative. -/
def optOrd (k : List Char → Option (List Char)) (s : List Char) :
    Option (List Char) :=
  ((litCIAt (lc ("st")) s).bind k) <|>
  ((litCIAt (lc ("nd")) s).bind k) <|>
  ((litCIAt (lc ("rd")) s).bind k) <|>
  ((litCIAt (lc ("th")) s).bind k) <|>
  k s

/-- `,?`, greedy: the comma is consumed when present and the
continuation succeeds, otherwise skipped. -/
def optComma (k : List Char → Option (List Char)) (s : List Char) :
    Option (List Char) :=
  (match s with
   | ',' :: rest => k rest
   | _ => none) <|> k s

/-- The separator class of the third date pattern: one character, either
a slash or a hyphen. -/
def dateSep (k : List Char → Option (List Char)) (s : List Char) :
    Option (List Char) :=
  match s with
  | c :: rest => if c == '/' || c == '-' then k rest else none
  | [] => none

/-- First date pattern of extract_date_from_context:
`(\d{1,2}(?:st|nd|rd|th)?\s+of\s+\w+\s+\d{4})`. -/
def d1At : List Char → Option (List Char) :=
  digits12 (optOrd (plusBT pyIsSpace (fun s =>
    (litCIAt (lc ("of")) s).bind (plusBT pyIsSpace
      (plusBT isWordChar (plusBT pyIsSpace (digits4 some)))))))

/-- Second date pattern: `(\w+\s+\d{1,2}(?:st|nd|rd|th)?,?\s+\d{4})`. -/
def d2At : List Char → Option (List Char) :=
  plusBT isWordChar (plusBT pyIsSpace
    (digits12 (optOrd (optComma (plusBT pyIsSpace (digits4 some))))))

/-- Third date pattern: one or two digits, a slash-or-hyphen separator,
one or two digits, a separator, four digits. -/
def d3At : List Char → Option (List Char) :=
  digits12 (dateSep (digits12 (dateSep (digits4 some))))

/-- The semantics of re.search: try the pattern at every position from
the left; on the first success return the match position and the matched
substring (for the source's patterns, group 1 is the whole match). -/
def reSearchAux (m : List Char → Option (List Char)) (pos : Nat) :
    List Char → Option (Nat × List Char)
  | [] =>
    match m [] with
    | some _ => some (pos, [])
    | none => none
  | c :: tail =>
    match m (c :: tail) with
    | some rest =>
      some (pos, (c :: tail).take ((c :: tail).length - rest.length))
    | none => reSearchAux m (pos + 1) tail

/-- re.search over a text, returning position and matched substring. -/
def reSearch (m : List Char → Option (List Char)) (s : List Char) :
    Option (Nat × List Char) :=
  reSearchAux m 0 s

/-- The ordered list of date-shape patterns of
extract_date_from_context. -/
def date_patterns : List (List Char → Option (List Char)) :=
  [d1At, d2At, d3At]

/-- The loop of extract_date_from_context: the patterns are tried in
list order; the first one that matches anywhere wins and its leftmost
match is returned. -/
def dateGo : List (List Char → Option (List Char)) → List Char → String
  | [], _ => ""
  | m :: ms, s =>
    match reSearch m s with
    | some r => String.mk r.2
    | none => dateGo ms s

/-- extract_date_from_context from the source: first pattern in the
fixed order whose re.search succeeds; empty string if none match. -/
def extract_date_from_context (context : String) : String :=
  dateGo date_patterns context.data

/-- Python str.strip() on the ASCII whitespace fragment. -/
def pyStripChars (l : List Char) : List Char :=
  ((l.dropWhile pyIsSpace).reverse.dropWhile pyIsSpace).reverse

/-- Python str.split with separator a single newline. -/
def splitNl : List Char → List (List Char)
  | [] => [[]]
  | c :: rest =>
    if c == '\n' then [] :: splitNl rest
    else
      match splitNl rest with
      | l :: ls => (c :: l) :: ls
      | [] => [[c]]

/-- The denylist test of extract_title_from_context:
re.search of `^(Home|Menu|Search|Filter)` with IGNORECASE, i.e. a
case-insensitive prefix test. -/
def startsDeny (l : List Char) : Bool :=
  (litCIAt (lc ("home")) l).isSome ||
  (litCIAt (lc ("menu")) l).isSome ||
  (litCIAt (lc ("search")) l).isSome ||
  (litCIAt (lc ("filter")) l).isSome

/-- The loop of extract_title_from_context: first stripped line with
length strictly between 20 and 200 that does not start with a denylist
word is returned; otherwise the scan continues. -/
def titleGo : List (List Char) → String
  | [] => ""
  | line :: rest =>
    let cleaned := pyStripChars line
    if 20 < cleaned.length ∧ cleaned.length < 200 then
      if startsDeny cleaned then titleGo rest else String.mk cleaned
    else titleGo rest

/-- extract_title_from_context from the source. -/
def extract_title_from_context (context : String) : String :=
  titleGo (splitNl context.data)

/-- Case-insensitive literal sequence with greedy `.`-gaps between the
literals: the shape of the source's publication patterns (a plain
literal, or literals joined by `.`-star as in the balance-of-payments
and observatory patterns). -/
def seqAt : List (List Char) → List Char → Option (List Char)
  | [], s => some s
  | [l], s => litCIAt l s
  | l :: l2 :: ls, s => (litCIAt l s).bind (dotStarBT (seqAt (l2 :: ls)))

/-- One entry of the publication-pattern registry: display title, the
regex source text, its matcher, and the priority level. -/
structure PatternEntry where
  title : String
  src : String
  matchAt : List Char → Option (List Char)
  priority : String

/-- The publication_patterns table of the source, in its insertion
order (Python dict iteration order). -/
def publication_patterns : List (String × PatternEntry) :=
  [("monthly_business_survey",
    { title := "Monthly Business Survey",
      src := "monthly business survey",
      matchAt := seqAt [lc ("monthly business survey")],
      priority := "High" }),
   ("macroeconomic_projections",
    { title := "Macroeconomic Projections",
      src := "macroeconomic projections",
      matchAt := seqAt [lc ("macroeconomic projections")],
      priority := "High" }),
   ("financial_stability_report",
    { title := "Financial Stability Report",
      src := "financial stability report",
      matchAt := seqAt [lc ("financial stability report")],
      priority := "Highest" }),
   ("letter_to_president",
    { title := "Letter to the President of the Republic",
      src := "letter to the president",
      matchAt := seqAt [lc ("letter to the president")],
      priority := "Medium" }),
   ("balance_of_payments",
    { title := "Balance of Payments Report",
      src := "balance of payments.*international investment",
      matchAt := seqAt [lc ("balance of payments"), lc ("international investment")],
      priority := "Medium" }),
   ("observatory_payment_security",
    { title := "Observatory Security Payment Report",
      src := "observatory.*security.*payment",
      matchAt := seqAt [lc ("observatory"), lc ("security"), lc ("payment")],
      priority := "Medium" }),
   ("annual_report",
    { title := "Banque de France Annual Report",
      src := "banque de france annual report",
      matchAt := seqAt [lc ("banque de france annual report")],
      priority := "Medium" })]

/-- re.search returning position, matched substring and remaining
suffix, used by finditer to continue after a match. -/
def reSearchRestAux (m : List Char → Option (List Char)) (pos : Nat) :
    List Char → Option (Nat × List Char × List Char)
  | [] =>
    match m [] with
    | some rest => some (pos, [], rest)
    | none => none
  | c :: tail =>
    match m (c :: tail) with
    | some rest =>
      some (pos, (c :: tail).take ((c :: tail).length - rest.length), rest)
    | none => reSearchRestAux m (pos + 1) tail

/-- The loop of re.finditer: leftmost non-overlapping matches, each
search resuming right after the previous match (the source's patterns
never match the empty string; a zero-width match advances one
character, as in Python). The fuel is an upper bound on the number of
iterations, one more than the text length. -/
def finditerGo (m : List Char → Option (List Char)) :
    Nat → Nat → List Char → List (Nat × Nat)
  | 0, _, _ => []
  | fuel + 1, base, s =>
    match reSearchRestAux m 0 s with
    | none => []
    | some (relpos, matched, rest) =>
      (base + relpos, base + relpos + matched.length) ::
      (if matched.length == 0 then
        match rest with
        | [] => []
        | _ :: rest2 => finditerGo m fuel (base + relpos + 1) rest2
      else finditerGo m fuel (base + relpos + matched.length) rest)

/-- re.finditer over a text: the list of (start, end) spans of
non-overlapping matches, left to right. -/
def finditer (m : List Char → Option (List Char)) (s : List Char) :
    List (Nat × Nat) :=
  finditerGo m (s.length + 1) 0 s

/-- A publication record as assembled by
extract_publications_from_page (dictionary with these keys in the
source). -/
structure Pub where
  pub_id : String
  title : String
  date_text : String
  pattern_matched : String
  priority : String
  extracted_at : String
  source_tag : String
deriving DecidableEq, Repr

/-- A structural text node as seen through BeautifulSoup: its tag name,
its own visible text (get_text with strip=True) and the flattened text
of its parent element when it has one. -/
structure Node where
  name : String
  text : String
  parentText : Option String
deriving DecidableEq, Repr

/-- The fetched and parsed page: the document's element nodes in
document order, and the whole page flattened to text (soup.get_text).
Fetching and HTML parsing themselves are external collaborators; a
fetch or parse failure is a raised exception, modelled by the Except
value fed to extract_publications_from_page. -/
structure Page where
  nodes : List Node
  text : String
deriving DecidableEq, Repr

/-- Python str.lower() on the ASCII fragment, used for the
case-insensitive duplicate check and the priority CSS class. -/
def lowerStr (s : String) : String := String.mk (s.data.map Char.toLower)

/-- extract_date_near_element from the source: the date extractor run
on the enclosing parent's text, or the empty string when the element
has no parent. -/
def extract_date_near_element (node : Node) : String :=
  match node.parentText with
  | some t => extract_date_from_context t
  | none => ""

/-- The inner loop of the structural pass: the registry entries are
tried in table order and the loop breaks at the first entry whose
re.search succeeds on the node text. -/
def firstPatternMatch (text : List Char) :
    List (String × PatternEntry) → Option (String × PatternEntry)
  | [] => none
  | (pid, e) :: rest =>
    if (reSearch e.matchAt text).isSome then some (pid, e)
    else firstPatternMatch text rest

/-- One node of the structural pass: the node contributes a record when
its text is non-empty, longer than 15 characters, and some registry
pattern matches; the record is built from the first matching entry. -/
def nodeRecord (now : String) (node : Node) : Option Pub :=
  if node.text ≠ "" ∧ 15 < node.text.length then
    match firstPatternMatch node.text.data publication_patterns with
    | some (pid, e) =>
      some { pub_id := pid,
             title := node.text,
             date_text := extract_date_near_element node,
             pattern_matched := e.src,
             priority := e.priority,
             extracted_at := now,
             source_tag := node.name }
    | none => none
  else none

/-- The context window of the full-text pass: 200 characters before the
match start (clamped at 0) up to 200 characters after the match end
(clamped at the text length). -/
def contextAt (pageText : List Char) (st en : Nat) : List Char :=
  let a := st - 200
  let b := min pageText.length (en + 200)
  (pageText.drop a).take (b - a)

/-- The tail of the full-text pass' match body, with the extracted
title and date in hand: append a record unless the title is empty, too
short, or duplicates (case-insensitively) the title of a record already
produced by either pass. -/
def considerRecord (now pid : String) (e : PatternEntry)
    (title date_text : String) (acc : List Pub) : List Pub :=
  if title ≠ "" ∧ 15 < title.length then
    if acc.any (fun pub => lowerStr pub.title == lowerStr title) then acc
    else
      acc ++ [{ pub_id := pid,
                title := title,
                date_text := date_text,
                pattern_matched := e.src,
                priority := e.priority,
                extracted_at := now,
                source_tag := "text_search" }]
  else acc

/-- The body of the full-text pass for one finditer match of one
registry entry: extract title and date from the context window, then
the guarded append above. -/
def textPassMatch (now : String) (pageText : List Char) (pid : String)
    (e : PatternEntry) (acc : List Pub) (span : Nat × Nat) : List Pub :=
  considerRecord now pid e
    (extract_title_from_context (String.mk (contextAt pageText span.1 span.2)))
    (extract_date_from_context (String.mk (contextAt pageText span.1 span.2)))
    acc

/-- The full-text pass: for every registry entry in table order, every
non-overlapping match of its pattern over the flattened page text is
processed, threading the accumulated record list of both passes. -/
def text_pass (now : String) (pageText : List Char) (acc : List Pub) :
    List Pub :=
  publication_patterns.foldl
    (fun acc pe =>
      (finditer pe.2.matchAt pageText).foldl
        (textPassMatch now pageText pe.1 pe.2) acc)
    acc

/-- The tag filter of soup.find_all in the structural pass. -/
def structuralTags : List String := ["h1", "h2", "h3", "h4", "a"]

/-- extract_publications_from_page from the source.  The whole body is
wrapped in a try/except returning [] on any exception, so a failed
fetch or parse (network error, timeout, raise_for_status on a non-2xx
response, or an unexpected document) yields the empty list; the
function is total, no exception escapes.  `now` is the value of
datetime.now stamped into the records. -/
def extract_publications_from_page (now : String)
    (fetch : Except String Page) : List Pub :=
  match fetch with
  | .error _ => []
  | .ok page =>
    let nodes := page.nodes.filter (fun n => n.name ∈ structuralTags)
    let publications := nodes.filterMap (nodeRecord now)
    text_pass now page.text.data publications

/-
The known-publications store.  Its logical shape (section 3 of the
specification) is a mapping from a stable publication key to record
metadata, itself a mapping of string fields; insertion order is kept
explicit because Python dictionaries preserve it.  The JSON layer is
modelled concretely: the encoder reproduces json.dump with
ensure_ascii=False and indent=2, and the parser accepts the
whitespace-tolerant object syntax that json.load accepts on documents
of this shape.
-/

/-- The store contents: publication key to field mapping. -/
abbrev Store := List (String × List (String × String))

/-- The state file: absent, or a read that raises, or the file text. -/
abbrev FileState := Option (Except String String)

/-- A lower-case hexadecimal digit, as produced by Python's \u escapes. -/
def hexDig (n : Nat) : Char :=
  if n < 10 then Char.ofNat (48 + n) else Char.ofNat (87 + n)

/-- The escape of one character in a JSON string, as json.dump with
ensure_ascii=False writes it: quote and backslash escaped, the control
characters with a short escape where one exists and a \u00xx escape
otherwise, every other character written literally. -/
def escChar (c : Char) : List Char :=
  if c == '"' then ['\\', '"']
  else if c == '\\' then ['\\', '\\']
  else if c == '\n' then ['\\', 'n']
  else if c == '\t' then ['\\', 't']
  else if c == '\r' then ['\\', 'r']
  else if c == Char.ofNat 8 then ['\\', 'b']
  else if c == Char.ofNat 12 then ['\\', 'f']
  else if c.toNat < 32 then
    ['\\', 'u', '0', '0', hexDig (c.toNat / 16), hexDig (c.toNat % 16)]
  else [c]

/-- Escape a character list, difference-list style. -/
def escGo : List Char → List Char → List Char
  | [], r => r
  | c :: cs, r => escChar c ++ escGo cs r

/-- A JSON string literal followed by a continuation. -/
def encStrD (s : List Char) (rest : List Char) : List Char :=
  '"' :: escGo s ('"' :: rest)

/-- The items of an inner object after the first one (a comma, a
newline, four spaces of depth-two indentation, the key, a colon-space
separator, the value), then the closing brace behind a newline and
depth-one indentation, as json.dump with indent=2 lays them out. -/
def innerChain : List (String × String) → List Char → List Char
  | [], rest => '\n' :: ' ' :: ' ' :: '}' :: rest
  | (k, v) :: l, rest =>
    ',' :: '\n' :: ' ' :: ' ' :: ' ' :: ' ' ::
      encStrD k.data (':' :: ' ' :: encStrD v.data (innerChain l rest))

/-- An inner (metadata) object, encoded as json.dump writes a dict of
strings at depth one with indent=2: empty braces, or an opening brace,
newline and depth-two indentation before the first item. -/
def encInner : List (String × String) → List Char → List Char
  | [], rest => '{' :: '}' :: rest
  | (k, v) :: l, rest =>
    '{' :: '\n' :: ' ' :: ' ' :: ' ' :: ' ' ::
      encStrD k.data (':' :: ' ' :: encStrD v.data (innerChain l rest))

/-- The items of the top-level object after the first one (comma,
newline, depth-one indentation), then the closing brace at depth
zero. -/
def storeChain : Store → List Char → List Char
  | [], rest => '\n' :: '}' :: rest
  | (k, v) :: l, rest =>
    ',' :: '\n' :: ' ' :: ' ' ::
      encStrD k.data (':' :: ' ' :: encInner v (storeChain l rest))

/-- The whole document json.dump(store, f, ensure_ascii=False,
indent=2) writes. -/
def encStore : Store → List Char
  | [] => ['{', '}']
  | (k, v) :: l =>
    '{' :: '\n' :: ' ' :: ' ' ::
      encStrD k.data (':' :: ' ' :: encInner v (storeChain l []))

/-- save_data's serialization of the store. -/
def dumpStore (st : Store) : String := String.mk (encStore st)

/-- JSON insignificant whitespace. -/
def jsonWs (c : Char) : Bool :=
  c == ' ' || c == '\t' || c == '\n' || c == '\r'

/-- Skip insignificant whitespace. -/
def skipWs (s : List Char) : List Char := s.dropWhile jsonWs

/-- Value of a hexadecimal digit. -/
def hexVal (c : Char) : Option Nat :=
  if c.isDigit then some (c.toNat - 48)
  else if 'a' ≤ c ∧ c ≤ 'f' then some (c.toNat - 87)
  else if 'A' ≤ c ∧ c ≤ 'F' then some (c.toNat - 55)
  else none

/-- The one-character escapes json.load accepts. -/
def escDecode (e : Char) : Option Char :=
  if e == '"' then some '"'
  else if e == '\\' then some '\\'
  else if e == '/' then some '/'
  else if e == 'b' then some (Char.ofNat 8)
  else if e == 'f' then some (Char.ofNat 12)
  else if e == 'n' then some '\n'
  else if e == 'r' then some '\r'
  else if e == 't' then some '\t'
  else none

/-- The body of a JSON string after the opening quote: characters up to
the closing quote, decoding escapes; a bare control character or an
unknown escape is an error, as in json.load's strict mode. -/
def parseStrBody : List Char → Option (List Char × List Char)
  | [] => none
  | c :: rest =>
    if c == '"' then some ([], rest)
    else if c == '\\' then
      match rest with
      | [] => none
      | e :: rest2 =>
        if e == 'u' then
          match rest2 with
          | h1 :: h2 :: h3 :: h4 :: rest3 =>
            match hexVal h1, hexVal h2, hexVal h3, hexVal h4 with
            | some a, some b, some x, some d =>
              match parseStrBody rest3 with
              | some (s, r) =>
                some (Char.ofNat (4096 * a + 256 * b + 16 * x + d) :: s, r)
              | none => none
            | _, _, _, _ => none
          | _ => none
        else
          match escDecode e with
          | some ch =>
            match parseStrBody rest2 with
            | some (s, r) => some (ch :: s, r)
            | none => none
          | none => none
    else if c.toNat < 32 then none
    else
      match parseStrBody rest with
      | some (s, r) => some (c :: s, r)
      | none => none

/-- A JSON string literal. -/
def parseStr (s : List Char) : Option (List Char × List Char) :=
  match s with
  | c :: rest => if c == '"' then parseStrBody rest else none
  | [] => none

/-- The pairs of an inner object, after its opening brace and leading
whitespace, knowing at least one pair follows.  The fuel bounds the
number of pairs; each pair consumes at least four characters, so any
fuel past the input length is inexhaustible. -/
def innerPairsGo : Nat → List Char → Option (List (String × String) × List Char)
  | 0, _ => none
  | fuel + 1, s =>
    match parseStr s with
    | none => none
    | some (k, s1) =>
      match skipWs s1 with
      | ':' :: s2 =>
        match parseStr (skipWs s2) with
        | none => none
        | some (v, s3) =>
          match skipWs s3 with
          | ',' :: s4 =>
            match innerPairsGo fuel (skipWs s4) with
            | some (ps, rest) => some ((String.mk k, String.mk v) :: ps, rest)
            | none => none
          | '}' :: s4 => some ([(String.mk k, String.mk v)], s4)
          | _ => none
      | _ => none

/-- An inner object: a brace-delimited, whitespace-tolerant mapping of
string fields. -/
def parseInner (fuel : Nat) (s : List Char) :
    Option (List (String × String) × List Char) :=
  match s with
  | '{' :: s1 =>
    match skipWs s1 with
    | '}' :: s2 => some ([], s2)
    | s2 => innerPairsGo fuel s2
  | _ => none

/-- The pairs of the top-level object, after its opening brace and
leading whitespace, knowing at least one pair follows. -/
def storePairsGo : Nat → List Char → Option (Store × List Char)
  | 0, _ => none
  | fuel + 1, s =>
    match parseStr s with
    | none => none
    | some (k, s1) =>
      match skipWs s1 with
      | ':' :: s2 =>
        match parseInner fuel (skipWs s2) with
        | none => none
        | some (v, s3) =>
          match skipWs s3 with
          | ',' :: s4 =>
            match storePairsGo fuel (skipWs s4) with
            | some (ps, rest) => some ((String.mk k, v) :: ps, rest)
            | none => none
          | '}' :: s4 => some ([(String.mk k, v)], s4)
          | _ => none
      | _ => none

/-- json.load on a document of the store's shape: the whole text must
be one object of objects of strings, with arbitrary insignificant
whitespace and nothing but whitespace after it. -/
def parseStore (s : String) : Option Store :=
  match skipWs s.data with
  | '{' :: s1 =>
    match skipWs s1 with
    | '}' :: s2 => if (skipWs s2).isEmpty then some [] else none
    | s2 =>
      match storePairsGo (s.data.length + 1) s2 with
      | some (st, rest) => if (skipWs rest).isEmpty then some st else none
      | none => none
  | _ => none

/-- Size measure of a store: one unit per outer pair plus the number of
inner pairs, a lower bound on the encoded length used to discharge the
parser's fuel. -/
def wSum : Store → Nat
  | [] => 0
  | (_, v) :: l => v.length + 1 + wSum l

/-- load_data from the source: an absent file yields the empty mapping;
a read or decode failure is caught and also yields the empty mapping;
otherwise the parsed mapping is returned. -/
def load_data (file : FileState) : Store :=
  match file with
  | none => []
  | some (.error _) => []
  | some (.ok content) =>
    match parseStore content with
    | some m => m
    | none => []

/-- save_data from the source: the state file is rewritten whole with
the serialized store (the write path of the source opens the file in
mode w and dumps the full mapping). -/
def save_data (st : Store) (_file : FileState) : FileState :=
  some (.ok (dumpStore st))

/-
The notifier and the daily check.  Wall-clock readings are passed in as
the `now` string; the Gmail transport is an external collaborator whose
success is the `apiOk` parameter.  A Python KeyError raised while
building the message body is an `Except.error` value.
-/

/-- Dictionary lookup into the pattern registry, as
publication_patterns[pub_id]: `none` is a raised KeyError. -/
def lookupPattern (pid : String) : Option PatternEntry :=
  (publication_patterns.find? (fun kv => kv.1 == pid)).map (fun kv => kv.2)

/-- Python's `x or y` fallback on a possibly empty date string. -/
def orElseStr (x y : String) : String := if x = "" then y else x

/-- The per-publication blocks of create_notification_html, numbered
from one.  The constant HTML and CSS boilerplate of the source is
abbreviated to its markup skeleton; the data flow is kept exactly: the
priority class, the title, the date with its fallback, the category
looked up in the registry by pub_id (the lookup that raises KeyError on
an unknown id), the priority, the first 19 characters of the extraction
timestamp, and the source tag. -/
def notifBlocks (i : Nat) : List Pub → Except String String
  | [] => .ok ""
  | pub :: rest =>
    let priority_class := "priority-" ++ lowerStr pub.priority
    match lookupPattern pub.pub_id with
    | none => .error ("KeyError: " ++ pub.pub_id)
    | some entry =>
      let block :=
        "<div class=\"publication " ++ priority_class ++ "\">" ++
        "<div class=\"title\">" ++ toString i ++ ". " ++ pub.title ++ "</div>" ++
        "<div class=\"details\">发行日: " ++ orElseStr pub.date_text ("日付不明") ++
        " カテゴリ: " ++ entry.title ++
        " 優先度: " ++ pub.priority ++
        " 検出日時: " ++ pub.extracted_at.take 19 ++
        " 抽出方法: " ++ pub.source_tag ++ "</div></div>"
      match notifBlocks (i + 1) rest with
      | .ok s => .ok (block ++ s)
      | .error e => .error e

/-- create_notification_html from the source: header with the count of
matching publications, one block per record in input order, footer with
the send time and the number of monitored patterns.  The KeyError of an
unknown pub_id propagates out of the block loop. -/
def create_notification_html (now : String) (pubs : List Pub) :
    Except String String :=
  match notifBlocks 1 pubs with
  | .ok blocks =>
    .ok ("<html><body><div class=\"header\">Banque de France</div>" ++
         "<p><strong>" ++ toString pubs.length ++ "件</strong></p>" ++
         blocks ++
         "<div class=\"footer\">送信日時: " ++ now ++
         " 監視対象: " ++ toString publication_patterns.length ++
         "</div></body></html>")
  | .error e => .error e

/-- send_gmail_notification from the source: the whole body is wrapped
in a try/except returning False; an exception while building the HTML
(the KeyError case) or a failing Gmail API call gives False, a
successful send gives True. -/
def send_gmail_notification (apiOk : Bool) (now : String)
    (matching_publications : List Pub) : Bool :=
  match create_notification_html now matching_publications with
  | .error _ => false
  | .ok _ => apiOk

/-- check_for_new_publications from the source: its body is a single
log statement, so the function always falls off the end and returns
Python's None. -/
def check_for_new_publications : Option (List Pub) := none

/-- What one run of the daily check did: the known-publications
mapping afterwards, whether a mail was sent, and the side-effecting
operations invoked. -/
inductive Action where
  | send : Action
  | save : Action
deriving DecidableEq, Repr

/-- Result record of run_daily_check. -/
structure RunResult where
  known_publications : Store
  mailSent : Bool
  actions : List Action
deriving DecidableEq, Repr

/-- run_daily_check from the source: take the result of
check_for_new_publications; when it is truthy (a non-empty list) send
the notification and log the outcome, otherwise only log.  The body
contains no call to save_data and no assignment to
known_publications. -/
def run_daily_check (st : Store) (apiOk : Bool) (now : String) :
    RunResult :=
  match check_for_new_publications with
  | some matching =>
    if matching.isEmpty then
      { known_publications := st, mailSent := false, actions := [] }
    else
      let success := send_gmail_notification apiOk now matching
      { known_publications := st, mailSent := success,
        actions := [Action.send] }
  | none => { known_publications := st, mailSent := false, actions := [] }

/-- The fixed record test_notification builds. -/
def testPublication (now : String) : Pub :=
  { pub_id := "test",
    title := "テスト通知 - BdF刊行物監視システム",
    date_text := "2025年6月23日",
    pattern_matched := "test",
    priority := "Test",
    extracted_at := now,
    source_tag := "manual_test" }

/-- test_notification from the source: send the fixed test record and
return the transport's verdict. -/
def test_notification (apiOk : Bool) (now : String) : Bool :=
  send_gmail_notification apiOk now [testPublication now]

/-- The title-extractor contract as the specification words it: a line
qualifies when its trimmed length lies strictly between 20 and 200 and
it does not begin, case-insensitively, with Home, Menu, Search or
Filter. -/
def titleLineOk (l : List Char) : Bool :=
  decide (20 < l.length) && decide (l.length < 200) && !(startsDeny l)

/-- The title extractor as the specification words it: the first
qualifying stripped line, and the empty string when no line
qualifies. -/
def titleSpec (context : String) : String :=
  match ((splitNl context.data).map pyStripChars).find? titleLineOk with
  | some l => String.mk l
  | none => ""

/-- The h2 node of the specification's structural-pass scenario. -/
def nodeFsr : Node :=
  { name := "h2",
    text := "Financial Stability Report – 12th of June 2025",
    parentText := some ("Financial Stability Report – 12th of June 2025") }

/-- The formal reading of claim C4 as written: whenever pattern P's
leftmost match in the window sits strictly before every other pattern's
leftmost match, the extractor returns P's matched substring. -/
def dateClaimAsWritten : Prop :=
  ∀ (ctx : String) (i : Fin date_patterns.length) (pos : Nat) (m : List Char),
    reSearch (date_patterns.get i) ctx.data = some (pos, m) →
    (∀ (j : Fin date_patterns.length), j ≠ i →
      ∀ (r : Nat × List Char),
        reSearch (date_patterns.get j) ctx.data = some r → pos < r.1) →
    extract_date_from_context ctx = String.mk m

/-- The window refuting claim C4: the slash date sits at position 0,
before the ordinal date at position 14, yet the extractor prefers the
ordinal pattern because it comes first in the pattern list. -/
def ctxC4 : String := "01/02/2025 on 3rd of June 2025"

/-- The relation behind the corrected deduplication claim: a record
produced by the full-text pass never repeats, case-insensitively, the
title of any record that precedes it in the result list. -/
def laterTextDistinct (a b : Pub) : Prop :=
  b.source_tag = "text_search" → ¬ lowerStr a.title = lowerStr b.title

/-- First heading of the page refuting claim C1. -/
def nodeC1a : Node :=
  { name := "h2", text := "Financial Stability Report June 2025 Edition",
    parentText := none }

/-- Second heading of the page refuting claim C1, the same title upper-cased. -/
def nodeC1b : Node :=
  { name := "h3", text := "FINANCIAL STABILITY REPORT JUNE 2025 EDITION",
    parentText := none }

/-- The page refuting claim C1: two structural nodes whose texts differ
only by letter case, and no flattened text. -/
def pageC1 : Page := { nodes := [nodeC1a, nodeC1b], text := "" }

/-
Theorems.
-/

/-- C2: check_for_new_publications is a stub whose body only logs, so it
returns None; consequently run_daily_check never takes the notification
branch, never calls send_gmail_notification (its action trace is empty)
and leaves known_publications unchanged, for every state, transport
outcome and clock reading. -/
theorem C2_check_stub (st : Store) (apiOk : Bool) (now : String) :
    check_for_new_publications = none ∧
    run_daily_check st apiOk now =
      { known_publications := st, mailSent := false, actions := [] } :=
  ⟨rfl, rfl⟩

/-- C3 counterexample: the claim that every execution of the daily check
ends with a call to the save operation is false; at the concrete state
below (as at every state) the run's action trace contains no save. -/
theorem C3_cex :
    ¬ (∀ (st : Store) (apiOk : Bool) (now : String),
        Action.save ∈ (run_daily_check st apiOk now).actions) := by
  intro h
  exact absurd (h [] false "") (by decide)

/-- C3 amended: no execution of the daily check invokes the save
operation — run_daily_check's body never calls save_data, so the
known-publications store is not persisted by the check at all. -/
theorem C3_no_save (st : Store) (apiOk : Bool) (now : String) :
    (run_daily_check st apiOk now).actions = [] := rfl

/-- C5: a fetch or parse failure (a raised exception: network error,
timeout, non-2xx status via raise_for_status, or unexpected document
shape) makes extract_publications_from_page return the empty list —
the function is total, so no exception escapes — and in that cycle
run_daily_check sends no mail. -/
theorem C5_failure_empty (e : String) (now : String) (st : Store)
    (apiOk : Bool) :
    extract_publications_from_page now (.error e) = [] ∧
    (run_daily_check st apiOk now).mailSent = false :=
  ⟨rfl, rfl⟩

/-- C9: load_data returns the empty mapping, without raising, when the
state file does not exist or reading it raises or its contents do not
decode; and it returns the persisted mapping when the file is readable
and decodes. -/
theorem C9_load_total (e : String) (s : String) (m : Store) :
    load_data none = [] ∧
    load_data (some (.error e)) = [] ∧
    (parseStore s = some m → load_data (some (.ok s)) = m) ∧
    (parseStore s = none → load_data (some (.ok s)) = []) := by
  refine ⟨rfl, rfl, fun h => ?_, fun h => ?_⟩
  · simp [load_data, h]
  · simp [load_data, h]

/-- The loop of extract_title_from_context agrees, line list by line
list, with taking the first qualifying stripped line. -/
theorem titleGo_eq_find (ls : List (List Char)) :
    titleGo ls =
      match (ls.map pyStripChars).find? titleLineOk with
      | some l => String.mk l
      | none => "" := by
  induction ls with
  | nil => rfl
  | cons line rest ih =>
    by_cases h1 : 20 < (pyStripChars line).length
    · by_cases h2 : (pyStripChars line).length < 200
      · by_cases h3 : startsDeny (pyStripChars line) = true
        · simp [titleGo, titleLineOk, List.find?, h1, h2, h3, ih]
        · simp [titleGo, titleLineOk, List.find?, h1, h2, h3, ih]
      · simp [titleGo, titleLineOk, List.find?, h1, h2, ih]
    · simp [titleGo, titleLineOk, List.find?, h1, ih]

/-- C7: extract_title_from_context returns the first line whose trimmed
length is strictly between 20 and 200 and which does not begin
case-insensitively with a denylisted word; lines failing either test
are rejected and the empty string is returned when no line
qualifies. -/
theorem C7_title_first_qualifying (ctx : String) :
    extract_title_from_context ctx = titleSpec ctx := by
  unfold extract_title_from_context titleSpec
  exact titleGo_eq_find (splitNl ctx.data)

/-- The break-at-first-match loop: when every entry before index i fails
on the text and entry i matches, the loop returns entry i. -/
theorem firstPM_first (text : List Char) :
    ∀ (l : List (String × PatternEntry)) (i : Nat) (hi : i < l.length),
      (∀ j, ∀ (hj : j < i),
        (reSearch (l.get ⟨j, hj.trans hi⟩).2.matchAt text).isSome = false) →
      (reSearch (l.get ⟨i, hi⟩).2.matchAt text).isSome = true →
      firstPatternMatch text l = some (l.get ⟨i, hi⟩) := by
  intro l
  induction l with
  | nil => intro i hi; exact absurd hi (Nat.not_lt_zero i)
  | cons hd tl ih =>
    intro i hi hskip hmatch
    match i with
    | 0 =>
      obtain ⟨pid, e⟩ := hd
      have hm : (reSearch e.matchAt text).isSome = true := by
        simpa [List.get] using hmatch
      simp only [firstPatternMatch, hm, if_true, List.get]
    | i + 1 =>
      obtain ⟨pid, e⟩ := hd
      have hhd : (reSearch e.matchAt text).isSome = false := by
        simpa [List.get] using hskip 0 (Nat.succ_pos i)
      have htl := ih i (Nat.lt_of_succ_lt_succ hi)
        (fun j hj => by
          simpa [List.get] using hskip (j + 1) (Nat.succ_lt_succ hj))
        (by simpa [List.get] using hmatch)
      simp [firstPatternMatch, hhd, htl, List.get]

/-- C6: in the structural pass every candidate node produces at most one
record — the registry entries are tried in table order and the first
entry whose pattern matches the node's text wins, with every later
entry skipped: the single record the node yields is built entirely from
that first matching entry. -/
theorem C6_first_match_wins (now : String) (node : Node) (i : Nat)
    (hi : i < publication_patterns.length)
    (hskip : ∀ j, ∀ (hj : j < i),
      (reSearch ((publication_patterns.get ⟨j, hj.trans hi⟩).2.matchAt)
        node.text.data).isSome = false)
    (hmatch : (reSearch ((publication_patterns.get ⟨i, hi⟩).2.matchAt)
        node.text.data).isSome = true)
    (hne : node.text ≠ "") (hlen : 15 < node.text.length) :
    nodeRecord now node = some
      { pub_id := (publication_patterns.get ⟨i, hi⟩).1,
        title := node.text,
        date_text := extract_date_near_element node,
        pattern_matched := (publication_patterns.get ⟨i, hi⟩).2.src,
        priority := (publication_patterns.get ⟨i, hi⟩).2.priority,
        extracted_at := now,
        source_tag := node.name } := by
  have hfm := firstPM_first node.text.data publication_patterns i hi hskip hmatch
  simp [nodeRecord, hne, hlen, hfm]

/-- C6 witness: on the scenario heading the first two registry entries
fail, the financial-stability entry (index 2) matches, and the node
yields exactly that entry's record, date included. -/
theorem C6_first_match_wins_w :
    nodeRecord ("t0") nodeFsr = some
      { pub_id := "financial_stability_report",
        title := "Financial Stability Report – 12th of June 2025",
        date_text := "12th of June 2025",
        pattern_matched := "financial stability report",
        priority := "Highest",
        extracted_at := "t0",
        source_tag := "h2" } := by
  have h0 : (reSearch ((publication_patterns.get
      ⟨0, (by decide : 0 < publication_patterns.length)⟩).2.matchAt)
      nodeFsr.text.data).isSome = false := by decide
  have h1 : (reSearch ((publication_patterns.get
      ⟨1, (by decide : 1 < publication_patterns.length)⟩).2.matchAt)
      nodeFsr.text.data).isSome = false := by decide
  refine (C6_first_match_wins ("t0") nodeFsr 2 (by decide)
    (fun j hj => ?_) (by decide) (by decide) (by decide)).trans ?_
  · match j, hj with
    | 0, _ => exact h0
    | 1, _ => exact h1
  · decide

/-- C4 counterexample: the claim as written is false.  In ctxC4 the
third pattern's match "01/02/2025" starts at position 0, strictly
before the only other match (pattern one's "3rd of June 2025" at
position 14; pattern two has no match), yet the extractor returns
"3rd of June 2025". -/
theorem C4_cex : ¬ dateClaimAsWritten := by
  intro h
  refine absurd (h ctxC4 ⟨2, by decide⟩ 0 (("01/02/2025").data)
    (by decide) (fun j hj r hr => ?_)) (by decide)
  fin_cases j
  · rw [show reSearch (date_patterns.get ⟨0, by decide⟩) ctxC4.data =
      some (14, ("3rd of June 2025").data) from by decide] at hr
    cases hr
    decide
  · rw [show reSearch (date_patterns.get ⟨1, by decide⟩) ctxC4.data =
      none from by decide] at hr
    exact absurd hr (by simp)
  · exact absurd rfl hj

/-- C4 amended: the date extractor follows the priority order of the
fixed pattern list, not textual position — for every window, either no
pattern matches anywhere and the result is the empty string, or there
is a first matching pattern in list order and the result is exactly
that pattern's leftmost match. -/
theorem C4_priority_order (ctx : String) :
    (extract_date_from_context ctx = "" ∧
      ∀ p ∈ date_patterns, reSearch p ctx.data = none) ∨
    (∃ (i : Fin date_patterns.length) (r : Nat × List Char),
      reSearch (date_patterns.get i) ctx.data = some r ∧
      (∀ (j : Fin date_patterns.length), j.val < i.val →
        reSearch (date_patterns.get j) ctx.data = none) ∧
      extract_date_from_context ctx = String.mk r.2) := by
  rcases h1 : reSearch d1At ctx.data with _ | r1
  · rcases h2 : reSearch d2At ctx.data with _ | r2
    · rcases h3 : reSearch d3At ctx.data with _ | r3
      · left
        constructor
        · simp [extract_date_from_context, dateGo, date_patterns, h1, h2, h3]
        · intro p hp
          rcases (by simpa [date_patterns] using hp : p = d1At ∨ p = d2At ∨ p = d3At)
            with h | h | h <;> simp [h, h1, h2, h3]
      · right
        refine ⟨⟨2, by decide⟩, r3, h3, fun j hj => ?_, ?_⟩
        · match j, hj with
          | ⟨0, _⟩, _ => exact h1
          | ⟨1, _⟩, _ => exact h2
        · simp [extract_date_from_context, dateGo, date_patterns, h1, h2, h3]
    · right
      refine ⟨⟨1, by decide⟩, r2, h2, fun j hj => ?_, ?_⟩
      · match j, hj with
        | ⟨0, _⟩, _ => exact h1
      · simp [extract_date_from_context, dateGo, date_patterns, h1, h2]
  · right
    refine ⟨⟨0, by decide⟩, r1, h1, fun j hj => ?_, ?_⟩
    · exact absurd hj (Nat.not_lt_zero _)
    · simp [extract_date_from_context, dateGo, date_patterns, h1]

/-- Lists with no text_search record satisfy the relation trivially. -/
theorem pairwiseNoTag (l : List Pub)
    (h : ∀ b ∈ l, ¬ b.source_tag = "text_search") :
    l.Pairwise laterTextDistinct := by
  induction l with
  | nil => exact List.Pairwise.nil
  | cons a t ih =>
    refine List.Pairwise.cons (fun b hb tag => ?_)
      (ih (fun b hb => h b (List.mem_cons_of_mem _ hb)))
    exact absurd tag (h b (List.mem_cons_of_mem _ hb))

/-- Every record of the structural pass carries its element's tag name,
which is one of the find_all tags and never "text_search". -/
theorem structuralTagNe (now : String) (nodes : List Node) (p : Pub)
    (hp : p ∈ (nodes.filter (fun n => n.name ∈ structuralTags)).filterMap
        (nodeRecord now)) :
    ¬ p.source_tag = "text_search" := by
  rcases List.mem_filterMap.mp hp with ⟨n, hn, hrec⟩
  have hname : p.source_tag = n.name := by
    unfold nodeRecord at hrec
    by_cases hc : n.text ≠ "" ∧ 15 < n.text.length
    · rw [if_pos hc] at hrec
      rcases hfm : firstPatternMatch n.text.data publication_patterns
        with _ | pe
      · rw [hfm] at hrec; cases hrec
      · obtain ⟨pid, e⟩ := pe
        rw [hfm] at hrec
        cases hrec
        rfl
    · rw [if_neg hc] at hrec; cases hrec
  have hmem : n.name ∈ structuralTags := by
    simpa using (List.mem_filter.mp hn).2
  rw [hname]
  rcases (by simpa [structuralTags] using hmem :
      n.name = "h1" ∨ n.name = "h2" ∨ n.name = "h3" ∨ n.name = "h4" ∨
      n.name = "a") with h | h | h | h | h <;> simp [h]

/-- A fold preserves the pairwise invariant when each step does. -/
theorem foldlPairwise {α : Type} (f : List Pub → α → List Pub)
    (hf : ∀ acc x, acc.Pairwise laterTextDistinct →
      (f acc x).Pairwise laterTextDistinct) :
    ∀ (l : List α) (acc : List Pub), acc.Pairwise laterTextDistinct →
      (l.foldl f acc).Pairwise laterTextDistinct := by
  intro l
  induction l with
  | nil => intro acc h; exact h
  | cons x t ih => intro acc h; exact ih (f acc x) (hf acc x h)

/-- The guarded append preserves the invariant: a record is only
appended after the duplicate check against every record accumulated so
far. -/
theorem considerRecordPairwise (now pid : String) (e : PatternEntry)
    (title date_text : String) (acc : List Pub)
    (h : acc.Pairwise laterTextDistinct) :
    (considerRecord now pid e title date_text acc).Pairwise
      laterTextDistinct := by
  unfold considerRecord
  by_cases h1 : title ≠ "" ∧ 15 < title.length
  · rw [if_pos h1]
    by_cases h2 : acc.any
        (fun pub => lowerStr pub.title == lowerStr title) = true
    · rw [if_pos h2]; exact h
    · rw [if_neg h2]
      rw [List.pairwise_append]
      refine ⟨h, List.pairwise_singleton _ _, ?_⟩
      intro a ha b hb
      have hb2 : b =
          { pub_id := pid, title := title, date_text := date_text,
            pattern_matched := e.src, priority := e.priority,
            extracted_at := now, source_tag := "text_search" } := by
        simpa using hb
      subst hb2
      intro _tag heq
      exact h2 (List.any_eq_true.mpr ⟨a, ha, by simp [heq]⟩)
  · rw [if_neg h1]; exact h

/-- One full-text-pass step preserves the invariant. -/
theorem textPassMatchPairwise (now : String) (pt : List Char)
    (pid : String) (e : PatternEntry) (acc : List Pub) (span : Nat × Nat)
    (h : acc.Pairwise laterTextDistinct) :
    (textPassMatch now pt pid e acc span).Pairwise laterTextDistinct :=
  considerRecordPairwise now pid e _ _ acc h

/-- C1 amended: deduplication guards only the full-text pass — in the
extractor's unioned result every record tagged "text_search" has a
title case-insensitively distinct from the title of every record that
precedes it (from either pass); the structural pass itself performs no
duplicate check, so two structural records may share a
case-insensitive title (see the counterexample). -/
theorem C1_text_pass_dedup (now : String) (fetch : Except String Page) :
    (extract_publications_from_page now fetch).Pairwise
      laterTextDistinct := by
  cases fetch with
  | error e => exact List.Pairwise.nil
  | ok page =>
    have hbase := pairwiseNoTag
      ((page.nodes.filter (fun n => n.name ∈ structuralTags)).filterMap
        (nodeRecord now))
      (fun b hb => structuralTagNe now page.nodes b hb)
    unfold extract_publications_from_page text_pass
    exact foldlPairwise _
      (fun (acc : List Pub) (pe : String × PatternEntry)
          (hacc : acc.Pairwise laterTextDistinct) =>
        foldlPairwise (textPassMatch now page.text.data pe.1 pe.2)
          (fun acc2 sp h2 =>
            textPassMatchPairwise now page.text.data pe.1 pe.2 acc2 sp h2)
          (finditer pe.2.matchAt page.text.data) acc hacc)
      publication_patterns _ hbase

/-- C1 counterexample: on pageC1 the extractor's unioned result holds
two records whose titles are equal except for letter case — the
structural pass deduplicates nothing, so the claimed at-most-one-per-
case-insensitive-title invariant fails. -/
theorem C1_cex :
    ¬ ((extract_publications_from_page ("t0") (.ok pageC1)).Pairwise
        (fun a b => ¬ lowerStr a.title = lowerStr b.title)) := by decide

/-- The blocks builder raises KeyError (an error value) whenever some
record's pub_id is not a registry key. -/
theorem notifBlocksError (pubs : List Pub) :
    ∀ (i : Nat), (∃ p ∈ pubs, lookupPattern p.pub_id = none) →
      ∃ e, notifBlocks i pubs = .error e := by
  induction pubs with
  | nil =>
    intro i h
    rcases h with ⟨p, hp, _⟩
    cases hp
  | cons q t ih =>
    intro i h
    rcases hl : lookupPattern q.pub_id with _ | entry
    · exact ⟨"KeyError: " ++ q.pub_id, by simp [notifBlocks, hl]⟩
    · rcases h with ⟨p, hp, hnone⟩
      rcases List.mem_cons.mp hp with rfl | hp2
      · rw [hl] at hnone; cases hnone
      · rcases ih (i + 1) ⟨p, hp2, hnone⟩ with ⟨e, he⟩
        exact ⟨e, by simp [notifBlocks, hl, he]⟩

/-- C8: whenever the input list holds a record whose pub_id is not a
key of the pattern registry, create_notification_html raises KeyError,
send_gmail_notification catches it and returns False whatever the
transport would have done — and since the fixed test record's pub_id
"test" is no registry key, test_notification always returns False. -/
theorem C8_keyerror_false (now : String) (pubs : List Pub)
    (h : ∃ p ∈ pubs, lookupPattern p.pub_id = none) :
    (∃ e, create_notification_html now pubs = .error e) ∧
    (∀ apiOk, send_gmail_notification apiOk now pubs = false) ∧
    (∀ apiOk now2, test_notification apiOk now2 = false) := by
  rcases notifBlocksError pubs 1 h with ⟨e, he⟩
  refine ⟨⟨e, by simp [create_notification_html, he]⟩, fun apiOk => ?_,
    fun apiOk now2 => ?_⟩
  · simp [send_gmail_notification, create_notification_html, he]
  · have htest : lookupPattern (testPublication now2).pub_id = none :=
      (rfl : lookupPattern "test" = none)
    rcases notifBlocksError [testPublication now2] 1
      ⟨testPublication now2, List.mem_singleton_self _, htest⟩ with ⟨e2, he2⟩
    simp [test_notification, send_gmail_notification,
      create_notification_html, he2]

/-- C8 witness: at the concrete test record (pub_id "test", absent from
the registry) the send returns False even with a succeeding transport,
and test_notification returns False. -/
theorem C8_keyerror_false_w :
    send_gmail_notification true ("t0") [testPublication ("t0")] = false ∧
    test_notification true ("t0") = false := by
  have h := C8_keyerror_false ("t0") [testPublication ("t0")]
    ⟨testPublication ("t0"), List.mem_singleton_self _, rfl⟩
  exact ⟨h.2.1 true, h.2.2 true ("t0")⟩

/-
Round trip of the store codec.
-/

/-- Rebuilding a string from its character list is the identity. -/
theorem stringMkData (s : String) : String.mk s.data = s := rfl

/-- The characters of a rebuilt string. -/
theorem stringDataMk (l : List Char) : (String.mk l).data = l := rfl

/-- Encoding and decoding of one hexadecimal digit. -/
theorem hexVal_hexDig (n : Nat) (h : n < 16) : hexVal (hexDig n) = some n := by
  interval_cases n <;> decide

/-- A closing quote ends the string body. -/
theorem psbQuoteEnd (X : List Char) : parseStrBody ('"' :: X) = some ([], X) := by
  rw [parseStrBody.eq_def]
  simp

/-- A short escape contributes its decoded character. -/
theorem psbEsc (e ch : Char) (X : List Char) (hu : ¬ e = 'u')
    (he : escDecode e = some ch) :
    parseStrBody ('\\' :: e :: X) =
      (match parseStrBody X with
       | some (s, r) => some (ch :: s, r)
       | none => none) := by
  rw [parseStrBody.eq_def]
  simp [hu, he]

/-- A unicode escape contributes the character of its four hex digits. -/
theorem psbU (a b c d : Char) (va vb vc vd : Nat) (X : List Char)
    (ha : hexVal a = some va) (hb : hexVal b = some vb)
    (hc : hexVal c = some vc) (hd : hexVal d = some vd) :
    parseStrBody ('\\' :: 'u' :: a :: b :: c :: d :: X) =
      (match parseStrBody X with
       | some (s, r) =>
         some (Char.ofNat (4096 * va + 256 * vb + 16 * vc + vd) :: s, r)
       | none => none) := by
  rw [parseStrBody.eq_def]
  simp [ha, hb, hc, hd]

/-- A plain character contributes itself. -/
theorem psbLit (c : Char) (X : List Char) (h1 : ¬ c = '"')
    (h2 : ¬ c = '\\') (h3 : ¬ c.toNat < 32) :
    parseStrBody (c :: X) =
      (match parseStrBody X with
       | some (s, r) => some (c :: s, r)
       | none => none) := by
  rw [parseStrBody.eq_def]
  simp [h1, h2, h3]

/-- Decoding inverts escaping, character by character. -/
theorem rtStrBody (s : List Char) : ∀ (rest : List Char),
    parseStrBody (escGo s ('"' :: rest)) = some (s, rest) := by
  induction s with
  | nil => intro rest; simpa [escGo] using psbQuoteEnd rest
  | cons c cs ih =>
    intro rest
    show parseStrBody (escChar c ++ escGo cs ('"' :: rest)) = some (c :: cs, rest)
    by_cases h1 : c = '"'
    · subst h1
      rw [show escChar '"' = ['\\', '"'] from rfl]
      simp only [List.cons_append, List.nil_append]
      rw [psbEsc '"' '"' _ (by decide) (by decide), ih]
    · by_cases h2 : c = '\\'
      · subst h2
        rw [show escChar '\\' = ['\\', '\\'] from rfl]
        simp only [List.cons_append, List.nil_append]
        rw [psbEsc '\\' '\\' _ (by decide) (by decide), ih]
      · by_cases h3 : c = '\n'
        · subst h3
          rw [show escChar '\n' = ['\\', 'n'] from rfl]
          simp only [List.cons_append, List.nil_append]
          rw [psbEsc 'n' '\n' _ (by decide) (by decide), ih]
        · by_cases h4 : c = '\t'
          · subst h4
            rw [show escChar '\t' = ['\\', 't'] from rfl]
            simp only [List.cons_append, List.nil_append]
            rw [psbEsc 't' '\t' _ (by decide) (by decide), ih]
          · by_cases h5 : c = '\r'
            · subst h5
              rw [show escChar '\r' = ['\\', 'r'] from rfl]
              simp only [List.cons_append, List.nil_append]
              rw [psbEsc 'r' '\r' _ (by decide) (by decide), ih]
            · by_cases h6 : c = Char.ofNat 8
              · subst h6
                rw [show escChar (Char.ofNat 8) = ['\\', 'b'] from rfl]
                simp only [List.cons_append, List.nil_append]
                rw [psbEsc 'b' (Char.ofNat 8) _ (by decide) (by decide), ih]
              · by_cases h7 : c = Char.ofNat 12
                · subst h7
                  rw [show escChar (Char.ofNat 12) = ['\\', 'f'] from rfl]
                  simp only [List.cons_append, List.nil_append]
                  rw [psbEsc 'f' (Char.ofNat 12) _ (by decide) (by decide), ih]
                · by_cases h8 : c.toNat < 32
                  · have hch : escChar c =
                        ['\\', 'u', '0', '0', hexDig (c.toNat / 16),
                         hexDig (c.toNat % 16)] := by
                      simp [escChar, h1, h2, h3, h4, h5, h6, h7, h8]
                    rw [hch]
                    simp only [List.cons_append, List.nil_append]
                    have hdiv : c.toNat / 16 < 16 := by omega
                    have hmod : c.toNat % 16 < 16 := by omega
                    rw [psbU '0' '0' (hexDig (c.toNat / 16))
                      (hexDig (c.toNat % 16)) 0 0 (c.toNat / 16) (c.toNat % 16) _
                      (by decide) (by decide)
                      (hexVal_hexDig _ hdiv) (hexVal_hexDig _ hmod), ih]
                    have harith : 4096 * 0 + 256 * 0 + 16 * (c.toNat / 16) +
                        c.toNat % 16 = c.toNat := by omega
                    rw [harith, Char.ofNat_toNat]
                  · have hch : escChar c = [c] := by
                      simp [escChar, h1, h2, h3, h4, h5, h6, h7, h8]
                    rw [hch]
                    simp only [List.cons_append, List.nil_append]
                    rw [psbLit c _ h1 h2 h8, ih]

/-- Parsing inverts the string-literal encoder. -/
theorem rtParseStr (sd X : List Char) : parseStr (encStrD sd X) = some (sd, X) := by
  show parseStr ('"' :: escGo sd ('"' :: X)) = some (sd, X)
  unfold parseStr
  simp [rtStrBody]

/-- Whitespace-skipping helpers, all by computation. -/
theorem skipWsColon (X : List Char) : skipWs (':' :: X) = ':' :: X := rfl

/-- A comma is not whitespace. -/
theorem skipWsComma (X : List Char) : skipWs (',' :: X) = ',' :: X := rfl

/-- The single key separator space before a string value. -/
theorem skipWsSpStr (vd X : List Char) :
    skipWs (' ' :: encStrD vd X) = encStrD vd X := rfl

/-- The single key separator space before an inner object. -/
theorem skipWsSpInner (v : List (String × String)) (X : List Char) :
    skipWs (' ' :: encInner v X) = encInner v X := by
  cases v with
  | nil => rfl
  | cons p l => obtain ⟨a, b⟩ := p; rfl

/-- Newline and depth-two indentation before a string key. -/
theorem skipWsInd4 (kd X : List Char) :
    skipWs ('\n' :: ' ' :: ' ' :: ' ' :: ' ' :: encStrD kd X) =
      encStrD kd X := rfl

/-- Newline and depth-one indentation before a string key. -/
theorem skipWsInd2 (kd X : List Char) :
    skipWs ('\n' :: ' ' :: ' ' :: encStrD kd X) = encStrD kd X := rfl

/-- Newline and depth-one indentation before an inner closing brace. -/
theorem skipWsBrace2 (X : List Char) :
    skipWs ('\n' :: ' ' :: ' ' :: '}' :: X) = '}' :: X := rfl

/-- Newline before the outer closing brace. -/
theorem skipWsBrace0 (X : List Char) :
    skipWs ('\n' :: '}' :: X) = '}' :: X := rfl

/-- The inner-pairs parser inverts the inner-items encoder. -/
theorem rtInnerGo (l : List (String × String)) : ∀ (k v : String)
    (rest : List Char) (fuel : Nat), l.length < fuel →
    innerPairsGo fuel
      (encStrD k.data (':' :: ' ' :: encStrD v.data (innerChain l rest))) =
      some ((k, v) :: l, rest) := by
  induction l with
  | nil =>
    intro k v rest fuel hf
    obtain ⟨f, rfl⟩ : ∃ f, fuel = f + 1 := ⟨fuel - 1, by omega⟩
    simp only [innerPairsGo, rtParseStr, skipWsColon, skipWsSpStr,
      innerChain, skipWsBrace2, stringMkData]
  | cons p l2 ih =>
    obtain ⟨k2, v2⟩ := p
    intro k v rest fuel hf
    obtain ⟨f, rfl⟩ : ∃ f, fuel = f + 1 := ⟨fuel - 1, by omega⟩
    have hf2 : l2.length < f := by
      simpa using Nat.lt_of_succ_lt_succ hf
    simp only [innerPairsGo, rtParseStr, skipWsColon, skipWsSpStr,
      innerChain, skipWsComma, skipWsInd4, stringMkData,
      ih k2 v2 rest f hf2]

/-- Reading past an opening brace, a newline and depth-two indentation
lands the inner parser on its first key. -/
theorem parseInnerSkip (fuel : Nat) (kd X : List Char) :
    parseInner fuel
      ('{' :: '\n' :: ' ' :: ' ' :: ' ' :: ' ' :: encStrD kd X) =
      innerPairsGo fuel (encStrD kd X) := rfl

/-- The inner-object parser inverts the inner-object encoder. -/
theorem rtParseInner (v : List (String × String)) (X : List Char)
    (fuel : Nat) (hf : v.length ≤ fuel) :
    parseInner fuel (encInner v X) = some (v, X) := by
  cases v with
  | nil => rfl
  | cons p t =>
    obtain ⟨k1, v1⟩ := p
    have ht : t.length < fuel := by
      simp only [List.length_cons] at hf
      omega
    show parseInner fuel ('{' :: '\n' :: ' ' :: ' ' :: ' ' :: ' ' ::
      encStrD k1.data (':' :: ' ' :: encStrD v1.data (innerChain t X))) = _
    rw [parseInnerSkip, rtInnerGo t k1 v1 X fuel ht]

/-- The outer-pairs parser inverts the outer-items encoder. -/
theorem rtStoreGo (l : Store) : ∀ (k : String)
    (v : List (String × String)) (rest : List Char) (fuel : Nat),
    l.length < fuel → v.length < fuel →
    (∀ p ∈ l, p.2.length + l.length + 1 < fuel) →
    storePairsGo fuel
      (encStrD k.data (':' :: ' ' :: encInner v (storeChain l rest))) =
      some ((k, v) :: l, rest) := by
  induction l with
  | nil =>
    intro k v rest fuel h1 h2 h3
    obtain ⟨f, rfl⟩ : ∃ f, fuel = f + 1 := ⟨fuel - 1, by omega⟩
    have hv : v.length ≤ f := by omega
    simp only [storePairsGo, rtParseStr, skipWsColon, skipWsSpInner,
      rtParseInner v (storeChain [] rest) f hv]
    rw [show storeChain [] rest = '\n' :: '}' :: rest from rfl]
    simp only [skipWsBrace0, stringMkData]
  | cons p l2 ih =>
    obtain ⟨k2, v2⟩ := p
    intro k v rest fuel h1 h2 h3
    obtain ⟨f, rfl⟩ : ∃ f, fuel = f + 1 := ⟨fuel - 1, by omega⟩
    have hv : v.length ≤ f := by omega
    have h1' : l2.length < f := by
      simp only [List.length_cons] at h1
      omega
    have h2' : v2.length < f := by
      have := h3 (k2, v2) (List.mem_cons_self _ _)
      simp only [List.length_cons] at this
      omega
    have h3' : ∀ p ∈ l2, p.2.length + l2.length + 1 < f := by
      intro p hp
      have := h3 p (List.mem_cons_of_mem _ hp)
      simp only [List.length_cons] at this
      omega
    simp only [storePairsGo, rtParseStr, skipWsColon, skipWsSpInner,
      rtParseInner v (storeChain ((k2, v2) :: l2) rest) f hv]
    rw [show storeChain ((k2, v2) :: l2) rest =
      ',' :: '\n' :: ' ' :: ' ' ::
        encStrD k2.data (':' :: ' ' :: encInner v2 (storeChain l2 rest))
      from rfl]
    simp only [skipWsComma, skipWsInd2, stringMkData,
      ih k2 v2 rest f h1' h2' h3']

/-- One escaped character occupies at least one character. -/
theorem escChar_len (c : Char) : 1 ≤ (escChar c).length := by
  unfold escChar
  split_ifs <;> simp

/-- Escaping never shrinks a string. -/
theorem escGo_len (s : List Char) : ∀ (r : List Char),
    s.length + r.length ≤ (escGo s r).length := by
  induction s with
  | nil => intro r; simp [escGo]
  | cons c cs ih =>
    intro r
    have h1 := escChar_len c
    have h2 := ih r
    simp only [escGo, List.length_append, List.length_cons]
    omega

/-- An encoded string literal adds its two quotes. -/
theorem encStrD_len (s r : List Char) :
    s.length + r.length + 2 ≤ (encStrD s r).length := by
  have := escGo_len s ('"' :: r)
  simp only [encStrD, List.length_cons] at *
  omega

/-- Lower bound on the encoded inner items. -/
theorem innerChain_len (l : List (String × String)) : ∀ (r : List Char),
    l.length + r.length + 2 ≤ (innerChain l r).length := by
  induction l with
  | nil => intro r; simp [innerChain]
  | cons p t ih =>
    obtain ⟨k, v⟩ := p
    intro r
    have h1 := encStrD_len k.data
      (':' :: ' ' :: encStrD v.data (innerChain t r))
    have h2 := encStrD_len v.data (innerChain t r)
    have h3 := ih r
    simp only [innerChain, List.length_cons, List.length_append] at *
    omega

/-- Lower bound on an encoded inner object. -/
theorem encInner_len (v : List (String × String)) (r : List Char) :
    v.length + r.length + 2 ≤ (encInner v r).length := by
  cases v with
  | nil => simp [encInner]
  | cons p t =>
    obtain ⟨k, vv⟩ := p
    have h1 := encStrD_len k.data
      (':' :: ' ' :: encStrD vv.data (innerChain t r))
    have h2 := encStrD_len vv.data (innerChain t r)
    have h3 := innerChain_len t r
    simp only [encInner, List.length_cons, List.length_append] at *
    omega

/-- Lower bound on the encoded outer items. -/
theorem storeChain_len (l : Store) : ∀ (r : List Char),
    wSum l + r.length + 2 ≤ (storeChain l r).length := by
  induction l with
  | nil => intro r; simp [storeChain, wSum]
  | cons p t ih =>
    obtain ⟨k, v⟩ := p
    intro r
    have h1 := encStrD_len k.data (':' :: ' ' :: encInner v (storeChain t r))
    have h2 := encInner_len v (storeChain t r)
    have h3 := ih r
    simp only [storeChain, wSum, List.length_cons,
      List.length_append] at *
    omega

/-- Lower bound on the whole encoded document. -/
theorem encStore_len (st : Store) : wSum st + 2 ≤ (encStore st).length := by
  cases st with
  | nil => simp [encStore, wSum]
  | cons p l =>
    obtain ⟨k, v⟩ := p
    have h1 := encStrD_len k.data (':' :: ' ' :: encInner v (storeChain l []))
    have h2 := encInner_len v (storeChain l [])
    have h3 := storeChain_len l ([] : List Char)
    simp only [encStore, wSum, List.length_cons,
      List.length_append] at *
    omega

/-- A store has no more outer pairs than its size. -/
theorem length_le_wSum (st : Store) : st.length ≤ wSum st := by
  induction st with
  | nil => simp [wSum]
  | cons p t ih =>
    obtain ⟨k, v⟩ := p
    simp only [wSum, List.length_cons]
    omega

/-- Each member's inner size is below the store size. -/
theorem mem_wSum (st : Store) (p : String × List (String × String))
    (hp : p ∈ st) : p.2.length + st.length ≤ wSum st := by
  induction st with
  | nil => cases hp
  | cons a t ih =>
    obtain ⟨k, v⟩ := a
    rcases List.mem_cons.mp hp with rfl | hp2
    · have := length_le_wSum t
      simp only [wSum, List.length_cons]
      omega
    · have := ih hp2
      simp only [wSum, List.length_cons] at *
      omega

/-- The parser inverts the encoder on every store document. -/
theorem rtParseStore (st : Store) : parseStore (dumpStore st) = some st := by
  cases st with
  | nil => rfl
  | cons p l =>
    obtain ⟨k, v⟩ := p
    have hw := encStore_len ((k, v) :: l)
    have hl := length_le_wSum ((k, v) :: l)
    have h1 : l.length < (encStore ((k, v) :: l)).length + 1 := by
      simp only [List.length_cons] at hl
      omega
    have h2 : v.length < (encStore ((k, v) :: l)).length + 1 := by
      have := mem_wSum ((k, v) :: l) (k, v) (List.mem_cons_self _ _)
      simp only [List.length_cons] at this
      omega
    have h3 : ∀ q ∈ l, q.2.length + l.length + 1 <
        (encStore ((k, v) :: l)).length + 1 := by
      intro q hq
      have := mem_wSum ((k, v) :: l) q (List.mem_cons_of_mem _ hq)
      simp only [List.length_cons] at this
      omega
    show parseStore (String.mk (encStore ((k, v) :: l))) = some ((k, v) :: l)
    rw [show parseStore (String.mk (encStore ((k, v) :: l))) =
      (match storePairsGo ((encStore ((k, v) :: l)).length + 1)
          (encStrD k.data (':' :: ' ' :: encInner v (storeChain l []))) with
       | some (st, rest) => if (skipWs rest).isEmpty then some st else none
       | none => none) from rfl]
    rw [rtStoreGo l k v [] ((encStore ((k, v) :: l)).length + 1) h1 h2 h3]
    rfl

/-- C10: saving any store and loading it back returns an equal mapping;
the key-uniqueness hypotheses state that the lists stand for Python
dictionaries, whose keys are unique at each level. -/
theorem C10_save_load_round_trip (st : Store) (file : FileState)
    (hkeys : (st.map Prod.fst).Nodup)
    (hinner : ∀ p ∈ st, (p.2.map Prod.fst).Nodup) :
    load_data (save_data st file) = st := by
  simp [load_data, save_data, rtParseStore]

/-- C10 witness: a concrete two-publication store with distinct keys
survives the save-then-load round trip unchanged. -/
theorem C10_save_load_round_trip_w :
    load_data (save_data
      [("financial_stability_report",
        [("title", "Financial Stability Report"),
         ("date_text", "12th of June 2025")]),
       ("monthly_business_survey", [])] none) =
      [("financial_stability_report",
        [("title", "Financial Stability Report"),
         ("date_text", "12th of June 2025")]),
       ("monthly_business_survey", [])] :=
  C10_save_load_round_trip _ none (by decide) (by decide)

end BdF
